import Mathlib

/-!
Verification development for `download_asmr.py` (asmr-one downloader).

The Python source is shallowly embedded: pure helpers become Lean
functions over `List Char` / `String` / `Nat` / `ℚ`; the download
orchestrator of `main` becomes explicit state passing over association
lists (filesystem) together with an oracle describing the transport's
responses, and an event trace recording the observable actions. Bytes are
modelled as `Nat`, byte strings as `List Nat`.
-/

/-! ### Python string primitives -/

/-- The whitespace character class of `bytes.split()` (the ASCII
whitespace bytes). -/
def isPySpace (c : Char) : Bool :=
  c = ' ' || c = '\t' || c = '\n' || c = '\r' || c = '\x0b' || c = '\x0c'

/-- The whitespace character class of `str.strip()` / `str.isspace()`:
the characters `c` with `c.isspace()` true in Python — ASCII whitespace,
the information separators U+001C-U+001F, NEL U+0085, and the Unicode
space/line/paragraph separators (NBSP, OGHAM, U+2000-U+200A, LS, PS,
NNBSP, MMSP, IDEOGRAPHIC SPACE). -/
def isPyStrSpace (c : Char) : Bool :=
  (9 ≤ c.toNat && c.toNat ≤ 13) || (28 ≤ c.toNat && c.toNat ≤ 32) ||
    c.toNat = 0x85 || c.toNat = 0xa0 || c.toNat = 0x1680 ||
    (0x2000 ≤ c.toNat && c.toNat ≤ 0x200a) || c.toNat = 0x2028 || c.toNat = 0x2029 ||
    c.toNat = 0x202f || c.toNat = 0x205f || c.toNat = 0x3000

/-- Remove trailing `str.strip()` whitespace from a character list. -/
def dropTrailingSpaces : List Char → List Char
  | [] => []
  | c :: rest =>
    match dropTrailingSpaces rest with
    | [] => if isPyStrSpace c then [] else [c]
    | l => c :: l

/-- Python `str.strip()` on a character list: drop leading and trailing
Unicode whitespace. -/
def pyStripList (l : List Char) : List Char :=
  dropTrailingSpaces (l.dropWhile isPyStrSpace)

/-- Python `str.strip()`. -/
def pyStrip (s : String) : String :=
  String.mk (pyStripList s.data)

/-- Whether a character list starts with the comment marker `#`
(Python `startswith("#")`). -/
def startsHashL : List Char → Bool
  | [] => false
  | c :: _ => c = '#'

/-- Whether a string starts with the comment marker `#`. -/
def startsHashS (s : String) : Bool :=
  startsHashL s.data

/-- Universal-newline translation performed by Python when reading a text
file (and the line-boundary set of `bytes.splitlines`): `\r\n` and `\r`
both become `\n`. -/
def normalizeNewlines : List Char → List Char
  | [] => []
  | [c] => if c = '\r' then ['\n'] else [c]
  | c :: d :: rest =>
    if c = '\r' then
      if d = '\n' then '\n' :: normalizeNewlines rest
      else '\n' :: normalizeNewlines (d :: rest)
    else c :: normalizeNewlines (d :: rest)

/-- Split a character list at `\n` boundaries; a trailing newline yields a
trailing empty chunk (like `"a\n".split("\n") == ["a", ""]`). -/
def splitOnNl : List Char → List (List Char)
  | [] => [[]]
  | c :: rest =>
    if c = '\n' then [] :: splitOnNl rest
    else
      match splitOnNl rest with
      | [] => [[c]]
      | l :: ls => (c :: l) :: ls

/-- Python `bytes.splitlines()`: split at `\n`, `\r`, `\r\n`; no trailing
empty line; `b"".splitlines() == []`. -/
def pySplitlines (s : String) : List (List Char) :=
  if s.data.isEmpty then []
  else
    let ls := splitOnNl (normalizeNewlines s.data)
    match ls.getLast? with
    | some [] => ls.dropLast
    | _ => ls

/-- Helper for `pySplitWs`: accumulate the current token (reversed). -/
def splitWsAux : List Char → List Char → List (List Char)
  | [], acc => if acc.isEmpty then [] else [acc.reverse]
  | c :: rest, acc =>
    if isPySpace c then
      if acc.isEmpty then splitWsAux rest [] else acc.reverse :: splitWsAux rest []
    else splitWsAux rest (c :: acc)

/-- Python `bytes.split()` with no argument: split on whitespace runs,
producing no empty tokens. -/
def pySplitWs (l : List Char) : List (List Char) :=
  splitWsAux l []

/-- Numeric value of a decimal digit character, if it is one. -/
def digitVal (c : Char) : Option Nat :=
  if '0' ≤ c ∧ c ≤ '9' then some (c.toNat - 48) else none

/-- Digits of a nonnegative decimal numeral with optional single
underscores between digits (Python `int` literal grouping), after the
first digit has been consumed into `acc`. -/
def parseUDigitsAux (acc : Nat) : List Char → Option Nat
  | [] => some acc
  | c :: rest =>
    match digitVal c with
    | some d => parseUDigitsAux (acc * 10 + d) rest
    | none =>
      if c = '_' then
        match rest with
        | [] => none
        | d :: rest' =>
          match digitVal d with
          | some dv => parseUDigitsAux (acc * 10 + dv) rest'
          | none => none
      else none

/-- Parse a nonnegative decimal numeral (first character must be a digit). -/
def parseUNumeral : List Char → Option Nat
  | [] => none
  | c :: rest =>
    match digitVal c with
    | some d => parseUDigitsAux d rest
    | none => none

/-- Python `int()` applied to a whitespace-free token: optional sign,
then a decimal numeral. Returns `none` where Python raises `ValueError`. -/
def pyIntOfToken (l : List Char) : Option ℤ :=
  match l with
  | [] => none
  | c :: rest =>
    if c = '+' then (parseUNumeral rest).map Int.ofNat
    else if c = '-' then (parseUNumeral rest).map (fun n => -(n : ℤ))
    else (parseUNumeral l).map Int.ofNat

/-- Status-code extraction from a HEAD response,
`int(response_header.splitlines()[0].split()[1])`:
`none` models the unhandled exception raised on a malformed response
(empty response, fewer than two tokens on the first line, or a second
token that is not an integer numeral). -/
def parseStatusCode (resp : String) : Option ℤ :=
  match pySplitlines resp with
  | [] => none
  | first :: _ =>
    match pySplitWs first with
    | [] => none
    | [_] => none
    | _ :: second :: _ => pyIntOfToken second

/-! ### Decimal rendering (Python float formatting on exact values) -/

/-- Decimal digit characters of `n` (most significant first), using fuel;
empty for `n = 0`. -/
def natDigitsAux : Nat → Nat → List Char
  | 0, _ => []
  | fuel + 1, n =>
    if n = 0 then []
    else natDigitsAux fuel (n / 10) ++ [Char.ofNat (48 + n % 10)]

/-- Decimal rendering of a natural number. -/
def natToStr (n : Nat) : String :=
  if n = 0 then "0" else String.mk (natDigitsAux (n + 1) n)

/-- Left-pad a string with `'0'` to length `n`. -/
def padLeftZeros (s : String) (n : Nat) : String :=
  String.mk (List.replicate (n - s.data.length) '0') ++ s

/-- Decimal rendering of an integer. -/
def intToStr (n : ℤ) : String :=
  if n < 0 then "-" ++ natToStr n.natAbs else natToStr n.natAbs

/-- Round the fraction `num / den` (`den ≠ 0`) to the nearest integer,
ties to even (the rounding used by Python float formatting of exact
values). -/
def fracRndHalfEven (num : ℤ) (den : ℕ) : ℤ :=
  let f := num.fdiv den
  let r := num.fmod den
  if 2 * r < (den : ℤ) then f
  else if (den : ℤ) < 2 * r then f + 1
  else if f % 2 = 0 then f else f + 1

/-- Python `f"{x:.prec f}"` fixed-point formatting of the exact value
`num / den`. -/
def formatFixedFrac (num : ℤ) (den : ℕ) (prec : Nat) : String :=
  let n := fracRndHalfEven (num * (10 : ℤ) ^ prec) den
  let sign := if n < 0 then "-" else ""
  let m := n.natAbs
  let base := 10 ^ prec
  if prec = 0 then sign ++ natToStr m
  else sign ++ natToStr (m / base) ++ "." ++ padLeftZeros (natToStr (m % base)) prec

/-! ### Data model: manifest nodes and file metadata -/

/-- Metadata carried by a file item of the manifest (the fields of the
JSON object that `main` reads: `type`, `size`, `hash`, `duration`,
`mediaDownloadUrl`, `mediaStreamUrl`). `duration` is only meaningful for
audio entries. -/
structure FileInfo where
  type : String
  size : Nat
  hash : String
  duration : ℚ
  mediaDownloadUrl : String
  mediaStreamUrl : String
deriving DecidableEq, Repr

/-- A node of the manifest tree: a folder with children, or a file item
(`item["type"] == "folder"` distinguishes the two in the source). -/
inductive Node where
  | folder (title : String) (children : List Node)
  | file (title : String) (info : FileInfo)

/-- `convert_directory_to_files`: flatten the children of a directory into
`(relative path, file info)` pairs, depth first, paths as component
lists (`current_path / item["title"]`). -/
def convert_directory_to_files : List Node → List String → List (List String × FileInfo)
  | [], _ => []
  | Node.folder title children :: rest, cur =>
    convert_directory_to_files children (cur ++ [title]) ++
      convert_directory_to_files rest cur
  | Node.file title info :: rest, cur =>
    (cur ++ [title], info) :: convert_directory_to_files rest cur

/-- `str(path)` for a `pathlib.PurePath` built from `PurePath(".")` by
successive `/`: components joined by `/`, and `"."` for the empty path. -/
def renderPath : List String → String
  | [] => "."
  | [x] => x
  | x :: rest => x ++ "/" ++ renderPath rest

/-! ### Selection session: rendering the editable text -/

/-- The detail comment line written before a path when `--detail` is on:
`f"# size=(size / 1024**2):.3f MiB"` plus, for audio items,
`f", duration=(int(duration // 60))min(duration % 60):.2f sec"`. -/
def renderDetailLine (info : FileInfo) : String :=
  "# size=" ++ (formatFixedFrac (info.size : ℤ) 1048576 3 ++ (" MiB" ++
    (if info.type = "audio" then
      let mins : ℤ := info.duration.num.fdiv (60 * info.duration.den)
      ", duration=" ++ (intToStr mins ++ ("min" ++
        (formatFixedFrac (info.duration.num - 60 * mins * info.duration.den)
            info.duration.den 2
          ++ "sec")))
    else "")))

/-- The two explanatory comment lines and the blank separator written at
the top of the editable file. -/
def headerLines : List String :=
  ["# 每一行代表一个文件。注释行以 # 开头，不用管它们。",
   "# 请删除不想下载的文件，然后保存并关闭编辑器。",
   ""]

/-- The lines contributed by one flattened entry: the optional detail
comment line, then the path line. -/
def entryLines (detail : Bool) (e : List String × FileInfo) : List String :=
  (if detail then [renderDetailLine e.2] else []) ++ [renderPath e.1]

/-- All lines of the editable text, in order. -/
def contentLines (detail : Bool) (files : List (List String × FileInfo)) : List String :=
  headerLines ++ files.flatMap (entryLines detail)

/-- The full editable text written to the temporary file: every line
followed by `\n`. -/
def renderContent (detail : Bool) (files : List (List String × FileInfo)) : String :=
  String.mk (((contentLines detail files).map (fun s => s.data ++ ['\n'])).flatten)

/-- One line of the read-back file, as the selection parser sees it:
`line.strip()` if that is non-empty and does not start with `#`,
else nothing. -/
def selLine (l : List Char) : Option String :=
  let st := pyStripList l
  if st.isEmpty then none
  else if startsHashL st then none
  else some (String.mk st)

/-- `[line.strip() for line in temp_file if line.strip() and not
line.strip().startswith("#")]`: the selected path strings read back from
the edited file (text-mode reading applies universal-newline
translation). -/
def parseSelected (content : String) : List String :=
  (splitOnNl (normalizeNewlines content.data)).filterMap selLine

/-- `[file for file in files if str(file[0]) in selected_files]`: the
entries surviving the user's edit. -/
def selectedFilesData (content : String) (files : List (List String × FileInfo)) :
    List (List String × FileInfo) :=
  files.filter (fun f => decide (renderPath f.1 ∈ parseSelected content))

/-! ### Download orchestrator

The transport is an oracle: per file, the textual responses of the (at
most two) HEAD probes, and a list of outcomes for the successive download
invocations of the loop. Each download invocation appends some bytes to
the staging file and either returns normally (`ok`), raises
`subprocess.CalledProcessError` (`err`), or is hit by a
`KeyboardInterrupt` (`interrupt`). -/

/-- Outcome of one `curl` download invocation. -/
inductive FetchOutcome where
  | ok (append : List Nat)
  | err (append : List Nat)
  | interrupt (append : List Nat)
deriving DecidableEq, Repr

/-- Bytes a download invocation appended to the staging file. -/
def FetchOutcome.append : FetchOutcome → List Nat
  | .ok a => a
  | .err a => a
  | .interrupt a => a

/-- How the `while size < declared` download loop ended: the declared size
was reached (`normal`), a `KeyboardInterrupt` broke out (`interrupted`),
or the oracle ran out of events while the size is still short — the loop
is still running (`stillShort`). The payload is the staging file's
contents at that point. -/
inductive LoopExit where
  | normal (contents : List Nat)
  | interrupted (contents : List Nat)
  | stillShort (contents : List Nat)
deriving DecidableEq, Repr

/-- The download loop of `main` (lines 262-270): while the staging file is
smaller than the declared size, invoke a resuming fetch; a
`CalledProcessError` is swallowed and the loop retries; a
`KeyboardInterrupt` exits the loop. Also returns the number of fetch
invocations issued. -/
def downloadLoop (declared : Nat) : List Nat → List FetchOutcome → LoopExit × Nat
  | contents, [] =>
    if declared ≤ contents.length then (LoopExit.normal contents, 0)
    else (LoopExit.stillShort contents, 0)
  | contents, e :: rest =>
    if declared ≤ contents.length then (LoopExit.normal contents, 0)
    else
      match e with
      | FetchOutcome.ok app =>
        let r := downloadLoop declared (contents ++ app) rest
        (r.1, r.2 + 1)
      | FetchOutcome.err app =>
        let r := downloadLoop declared (contents ++ app) rest
        (r.1, r.2 + 1)
      | FetchOutcome.interrupt app => (LoopExit.interrupted (contents ++ app), 1)

/-- Observable per-file actions, in order: `mkdir -p` of the destination's
parent, staging-file preparation (seeded by copying the partial
destination, or created empty), HEAD probes, download fetch invocations,
and the relocation of the staging file to the destination. -/
inductive TraceEv where
  | mkdirParents (dir : String)
  | stageSeed (key : String) (bytes : List Nat)
  | stageEmpty (key : String)
  | headFetch (url : String)
  | downloadFetch (url : String)
  | moveStaging (key : String) (dest : String)
deriving DecidableEq, Repr

/-- Whether a trace event is a transport fetch (HEAD probe or download
invocation). -/
def isFetchEv : TraceEv → Bool
  | .headFetch _ => true
  | .downloadFetch _ => true
  | _ => false

/-- Association-list lookup for the modelled filesystems. -/
def lookupFs (fs : List (String × List Nat)) (k : String) : Option (List Nat) :=
  match fs with
  | [] => none
  | (k', v) :: rest => if k' = k then some v else lookupFs rest k

/-- Write (create or overwrite) a file in a modelled filesystem. -/
def updateFs (fs : List (String × List Nat)) (k : String) (v : List Nat) :
    List (String × List Nat) :=
  match fs with
  | [] => [(k, v)]
  | (k', v') :: rest => if k' = k then (k, v) :: rest else (k', v') :: updateFs rest k v

/-- Delete a file from a modelled filesystem. -/
def removeFs (fs : List (String × List Nat)) (k : String) : List (String × List Nat) :=
  fs.filter (fun e => !(e.1 = k : Bool))

/-- The mutable state of the orchestrator: the destination tree (keyed by
rendered relative path) and the staging temporary directory (keyed by
staging file name). -/
structure OrchState where
  destFs : List (String × List Nat)
  staging : List (String × List Nat)
deriving DecidableEq, Repr

/-- One selected file: its flattened relative path and its metadata. -/
structure DFile where
  path : List String
  info : FileInfo
deriving DecidableEq, Repr

/-- Destination path of a selected file (relative to the output root). -/
def destKey (f : DFile) : String := renderPath f.path

/-- The destination's parent directory, target of
`file_output_path.parent.mkdir(parents=True, exist_ok=True)`. -/
def parentKey (f : DFile) : String := renderPath f.path.dropLast

/-- Staging file name: `file_info["hash"].replace("/", "_")`. -/
def stagingKey (info : FileInfo) : String :=
  String.mk (info.hash.data.map (fun c => if c = '/' then '_' else c))

/-- Transport oracle for one file: the response bytes of the HEAD probe
of the primary URL, those of the fallback URL (consumed only if that
probe is issued), and the outcomes of the successive download
invocations. -/
structure FileNet where
  headPrimary : String
  headFallback : String
  downloadEvents : List FetchOutcome
deriving DecidableEq, Repr

/-- How the processing of one selected file ended. -/
inductive FileOutcome where
  | skipped
  | abandoned
  | completed
  | interrupted
  | crashed
  | stillShort
deriving DecidableEq, Repr

/-- Result of processing one file: the state afterwards, the emitted
event trace, and the outcome. -/
structure FileStep where
  state : OrchState
  trace : List TraceEv
  outcome : FileOutcome
deriving DecidableEq, Repr

/-- Lines 261-273 of `main`: run the download loop on the resolved URL,
then (in the `finally`) relocate the staging file onto the destination.
If the oracle is exhausted with the size still short, the loop is still
running: no relocation has happened yet. -/
def doDownload (net : FileNet) (st : OrchState) (f : DFile) (tr : List TraceEv)
    (staged : List Nat) (url : String) : FileStep :=
  let r := downloadLoop f.info.size staged net.downloadEvents
  let tr := tr ++ List.replicate r.2 (TraceEv.downloadFetch url)
  match r.1 with
  | LoopExit.normal c =>
    ⟨⟨updateFs st.destFs (destKey f) c, removeFs st.staging (stagingKey f.info)⟩,
      tr ++ [TraceEv.moveStaging (stagingKey f.info) (destKey f)], FileOutcome.completed⟩
  | LoopExit.interrupted c =>
    ⟨⟨updateFs st.destFs (destKey f) c, removeFs st.staging (stagingKey f.info)⟩,
      tr ++ [TraceEv.moveStaging (stagingKey f.info) (destKey f)], FileOutcome.interrupted⟩
  | LoopExit.stillShort c =>
    ⟨⟨st.destFs, updateFs st.staging (stagingKey f.info) c⟩, tr, FileOutcome.stillShort⟩

/-- Lines 246-259 of `main`: HEAD-probe the primary URL
(`mediaDownloadUrl`); on a status other than 200, HEAD-probe the fallback
URL (`mediaStreamUrl`); on a second non-200 status abandon the file. A
response on which status extraction fails crashes the whole run
(`FileOutcome.crashed`). -/
def resolveUrl (net : FileNet) (st : OrchState) (f : DFile) (tr : List TraceEv)
    (staged : List Nat) : FileStep :=
  let tr := tr ++ [TraceEv.headFetch f.info.mediaDownloadUrl]
  match parseStatusCode net.headPrimary with
  | none => ⟨st, tr, FileOutcome.crashed⟩
  | some code =>
    if code = 200 then doDownload net st f tr staged f.info.mediaDownloadUrl
    else
      let tr := tr ++ [TraceEv.headFetch f.info.mediaStreamUrl]
      match parseStatusCode net.headFallback with
      | none => ⟨st, tr, FileOutcome.crashed⟩
      | some code2 =>
        if code2 = 200 then doDownload net st f tr staged f.info.mediaStreamUrl
        else ⟨st, tr, FileOutcome.abandoned⟩

/-- Lines 229-273 of `main`, the body of the loop over selected files:
create the destination's parent directories; if the destination already
holds at least the declared size, skip; otherwise prepare the staging
file (seed it with the partial destination, or create it empty), resolve
the URL, and download. -/
def processFile (net : FileNet) (st : OrchState) (f : DFile) : FileStep :=
  let tr := [TraceEv.mkdirParents (parentKey f)]
  let key := stagingKey f.info
  match lookupFs st.destFs (destKey f) with
  | some b =>
    if f.info.size ≤ b.length then ⟨st, tr, FileOutcome.skipped⟩
    else
      resolveUrl net ⟨st.destFs, updateFs st.staging key b⟩ f
        (tr ++ [TraceEv.stageSeed key b]) b
  | none =>
    resolveUrl net ⟨st.destFs, updateFs st.staging key []⟩ f
      (tr ++ [TraceEv.stageEmpty key]) []

/-- How the whole run over the selected files ended: the file list was
exhausted (`finished`), a `KeyboardInterrupt` broke the loop
(`interrupted`), an unhandled exception aborted the run (`crashed`), or
the oracle was exhausted mid-download (`suspended`). -/
inductive RunResult where
  | finished
  | interrupted
  | crashed
  | suspended
deriving DecidableEq, Repr

/-- The loop over `selected_files_data` (lines 228-273): process files in
order; `skipped`, `abandoned` and `completed` continue with the next
file; an interrupt breaks the loop; a crash aborts the run. Returns the
final state, the per-file outcomes of the files actually processed, and
how the run ended. -/
def runFiles (st : OrchState) : List (DFile × FileNet) →
    OrchState × List (String × FileOutcome) × RunResult
  | [] => (st, [], RunResult.finished)
  | (f, net) :: rest =>
    let step := processFile net st f
    match step.outcome with
    | FileOutcome.interrupted =>
      (step.state, [(destKey f, FileOutcome.interrupted)], RunResult.interrupted)
    | FileOutcome.crashed =>
      (step.state, [(destKey f, FileOutcome.crashed)], RunResult.crashed)
    | FileOutcome.stillShort =>
      (step.state, [(destKey f, FileOutcome.stillShort)], RunResult.suspended)
    | o =>
      let r := runFiles step.state rest
      (r.1, (destKey f, o) :: r.2.1, r.2.2)

/-- The staging file's contents right after preparation: the partial
destination bytes if the destination exists, empty otherwise. (Only
meaningful when the file is not skipped.) -/
def stagedInit (st : OrchState) (f : DFile) : List Nat :=
  match lookupFs st.destFs (destKey f) with
  | some b => b
  | none => []

/-- Whether the destination is absent or smaller than the declared size,
i.e. the file is not skipped by the completeness check. -/
def destIncompleteB (st : OrchState) (f : DFile) : Bool :=
  match lookupFs st.destFs (destKey f) with
  | some b => decide (b.length < f.info.size)
  | none => true

/-- The URL the download loop would use, mirroring the fallback logic:
the primary URL on a 200, else the fallback URL on a 200, else none;
`none` also when status extraction fails. -/
def resolvedUrl (net : FileNet) (f : DFile) : Option String :=
  match parseStatusCode net.headPrimary with
  | none => none
  | some code =>
    if code = 200 then some f.info.mediaDownloadUrl
    else
      match parseStatusCode net.headFallback with
      | none => none
      | some code2 =>
        if code2 = 200 then some f.info.mediaStreamUrl else none

/-- Bound on the oracle expressing the transport/resume contract: a
resuming fetch never grows the file beyond the declared size (the server
honours the resource's length). Checked along the sizes the loop actually
reaches. -/
def neverOvershoot (declared : Nat) : Nat → List FetchOutcome → Bool
  | _, [] => true
  | size, e :: rest =>
    (decide (size < declared → size + e.append.length ≤ declared)) &&
      neverOvershoot declared (size + e.append.length) rest

/-! ### Helper lemmas -/

theorem lookupFs_updateFs_self (fs : List (String × List Nat)) (k : String) (v : List Nat) :
    lookupFs (updateFs fs k v) k = some v := by
  induction fs with
  | nil => simp [updateFs, lookupFs]
  | cons e rest ih =>
    obtain ⟨k', v'⟩ := e
    by_cases h : k' = k <;> simp [updateFs, lookupFs, h, ih]

theorem lookupFs_removeFs_self (fs : List (String × List Nat)) (k : String) :
    lookupFs (removeFs fs k) k = none := by
  induction fs with
  | nil => simp [removeFs, lookupFs]
  | cons e rest ih =>
    obtain ⟨k', v'⟩ := e
    by_cases h : k' = k <;> simp_all [removeFs, lookupFs, h]

theorem downloadLoop_stop (declared : Nat) (contents : List Nat) (evs : List FetchOutcome)
    (h : declared ≤ contents.length) :
    downloadLoop declared contents evs = (LoopExit.normal contents, 0) := by
  cases evs <;> simp [downloadLoop, h]

theorem downloadLoop_cons_ok (declared : Nat) (contents app : List Nat)
    (rest : List FetchOutcome) (h : ¬ declared ≤ contents.length) :
    downloadLoop declared contents (FetchOutcome.ok app :: rest)
      = ((downloadLoop declared (contents ++ app) rest).1,
         (downloadLoop declared (contents ++ app) rest).2 + 1) := by
  simp [downloadLoop, h]

theorem downloadLoop_cons_err (declared : Nat) (contents app : List Nat)
    (rest : List FetchOutcome) (h : ¬ declared ≤ contents.length) :
    downloadLoop declared contents (FetchOutcome.err app :: rest)
      = ((downloadLoop declared (contents ++ app) rest).1,
         (downloadLoop declared (contents ++ app) rest).2 + 1) := by
  simp [downloadLoop, h]

theorem downloadLoop_normal_le (declared : Nat) (evs : List FetchOutcome) :
    ∀ (contents c : List Nat),
      (downloadLoop declared contents evs).1 = LoopExit.normal c → declared ≤ c.length := by
  induction evs with
  | nil =>
    intro contents c h
    by_cases hle : declared ≤ contents.length
    · rw [downloadLoop_stop declared contents _ hle] at h
      injection h with h
      subst h
      exact hle
    · simp [downloadLoop, hle] at h
  | cons e rest ih =>
    intro contents c h
    by_cases hle : declared ≤ contents.length
    · rw [downloadLoop_stop declared contents _ hle] at h
      injection h with h
      subst h
      exact hle
    · cases e with
      | ok app =>
        rw [downloadLoop_cons_ok declared contents app rest hle] at h
        exact ih _ _ h
      | err app =>
        rw [downloadLoop_cons_err declared contents app rest hle] at h
        exact ih _ _ h
      | interrupt app => simp [downloadLoop, hle] at h

theorem downloadLoop_normal_exact (declared : Nat) (evs : List FetchOutcome) :
    ∀ (contents c : List Nat),
      neverOvershoot declared contents.length evs = true →
      contents.length ≤ declared →
      (downloadLoop declared contents evs).1 = LoopExit.normal c → c.length = declared := by
  induction evs with
  | nil =>
    intro contents c _ hle h
    by_cases hge : declared ≤ contents.length
    · rw [downloadLoop_stop declared contents _ hge] at h
      injection h with h
      subst h
      omega
    · simp [downloadLoop, hge] at h
  | cons e rest ih =>
    intro contents c hno hle h
    by_cases hge : declared ≤ contents.length
    · rw [downloadLoop_stop declared contents _ hge] at h
      injection h with h
      subst h
      omega
    · have hlt : contents.length < declared := by omega
      simp only [neverOvershoot, Bool.and_eq_true, decide_eq_true_eq] at hno
      have hbound : contents.length + e.append.length ≤ declared := hno.1 hlt
      have hno' := hno.2
      cases e with
      | ok app =>
        rw [downloadLoop_cons_ok declared contents app rest hge] at h
        refine ih (contents ++ app) c ?_ ?_ h
        · simpa [FetchOutcome.append] using hno'
        · simpa [FetchOutcome.append] using hbound
      | err app =>
        rw [downloadLoop_cons_err declared contents app rest hge] at h
        refine ih (contents ++ app) c ?_ ?_ h
        · simpa [FetchOutcome.append] using hno'
        · simpa [FetchOutcome.append] using hbound
      | interrupt app => simp [downloadLoop, hge] at h

/-! ### Claim C2: unconditional retry policy of the download loop -/

/-- **C2.** In the per-file download loop, a transport failure
(`CalledProcessError`) is swallowed and the loop retries exactly as after
a successful invocation of the same effect; there is no retry limit
(after `n` failed invocations the loop is still running, for every `n`)
and no backoff; and, absent an interrupt, the loop exits normally only
once the staging size has reached the declared size, exiting at once when
it has. -/
theorem C2_retry_policy (declared : Nat) (contents app : List Nat)
    (rest : List FetchOutcome) (n : Nat) (h : contents.length < declared) :
    downloadLoop declared contents (FetchOutcome.err app :: rest)
        = downloadLoop declared contents (FetchOutcome.ok app :: rest)
    ∧ (downloadLoop declared contents (FetchOutcome.err app :: rest)).1
        = (downloadLoop declared (contents ++ app) rest).1
    ∧ downloadLoop declared contents (List.replicate n (FetchOutcome.err []))
        = (LoopExit.stillShort contents, n)
    ∧ (∀ evs c, (downloadLoop declared contents evs).1 = LoopExit.normal c →
        declared ≤ c.length)
    ∧ (∀ evs : List FetchOutcome, ∀ c : List Nat, declared ≤ c.length →
        downloadLoop declared c evs = (LoopExit.normal c, 0)) := by
  have hnot : ¬ declared ≤ contents.length := by omega
  refine ⟨?_, ?_, ?_, ?_, ?_⟩
  · rw [downloadLoop_cons_err declared contents app rest hnot,
      downloadLoop_cons_ok declared contents app rest hnot]
  · rw [downloadLoop_cons_err declared contents app rest hnot]
  · induction n with
    | zero => simp [downloadLoop, hnot]
    | succ m ih =>
      rw [List.replicate_succ, downloadLoop_cons_err declared contents [] _ hnot,
        List.append_nil, ih]
  · intro evs c hl
    exact downloadLoop_normal_le declared evs contents c hl
  · intro evs c hge
    exact downloadLoop_stop declared c evs hge

/-- Witness for C2 at a concrete input. -/
theorem C2_retry_policy_witness :
    downloadLoop 2 [7] (FetchOutcome.err [9] :: [])
        = downloadLoop 2 [7] (FetchOutcome.ok [9] :: [])
    ∧ (downloadLoop 2 [7] (FetchOutcome.err [9] :: [])).1
        = (downloadLoop 2 ([7] ++ [9]) []).1
    ∧ downloadLoop 2 [7] (List.replicate 3 (FetchOutcome.err []))
        = (LoopExit.stillShort [7], 3)
    ∧ (∀ evs c, (downloadLoop 2 [7] evs).1 = LoopExit.normal c → 2 ≤ c.length)
    ∧ (∀ evs : List FetchOutcome, ∀ c : List Nat, 2 ≤ c.length →
        downloadLoop 2 c evs = (LoopExit.normal c, 0)) :=
  C2_retry_policy 2 [7] [9] [] 3 (by decide)

/-! ### Claim C6: completed destinations are skipped untouched -/

/-- **C6.** A selected file whose destination already exists with at least
the declared size is skipped: the outcome is `skipped`, the only emitted
action is the parent-directory creation (in particular no HEAD probe and
no download fetch is issued), no staging file is created, and both the
destination tree and the staging directory are left unchanged. -/
theorem C6_skip_invariant (st : OrchState) (f : DFile) (net : FileNet) (b : List Nat)
    (hb : lookupFs st.destFs (destKey f) = some b) (hge : f.info.size ≤ b.length) :
    (processFile net st f).outcome = FileOutcome.skipped
    ∧ (processFile net st f).trace = [TraceEv.mkdirParents (parentKey f)]
    ∧ ((processFile net st f).trace.all fun ev => !isFetchEv ev) = true
    ∧ (processFile net st f).state = st := by
  simp [processFile, hb, hge, isFetchEv]

/-- Concrete input for the C6 witness: destination already holds 3 bytes
of a 3-byte file. -/
def wInfo : FileInfo :=
  { type := "audio", size := 3, hash := "ab/cd", duration := mkRat 251 2,
    mediaDownloadUrl := "https://x/1", mediaStreamUrl := "https://y/1" }

/-- Concrete selected file for witnesses. -/
def wFile : DFile := { path := ["d", "x.mp3"], info := wInfo }

/-- Concrete state for the C6 witness. -/
def wSt6 : OrchState := ⟨[("d/x.mp3", [3, 1, 4])], []⟩

/-- Concrete oracle for the C6 witness. -/
def wNet6 : FileNet := ⟨"HTTP/2 200 ok", "HTTP/2 200 ok", []⟩

/-- Witness for C6 at a concrete input. -/
theorem C6_skip_invariant_witness :
    (processFile wNet6 wSt6 wFile).outcome = FileOutcome.skipped
    ∧ (processFile wNet6 wSt6 wFile).trace = [TraceEv.mkdirParents (parentKey wFile)]
    ∧ ((processFile wNet6 wSt6 wFile).trace.all fun ev => !isFetchEv ev) = true
    ∧ (processFile wNet6 wSt6 wFile).state = wSt6 :=
  C6_skip_invariant wSt6 wFile wNet6 [3, 1, 4] (by decide) (by decide)

/-! ### Claim C8: the concrete flattening and rendering scenario -/

/-- The file item of the concrete scenario of the spec: an audio file of
1048576 bytes with duration 125.5 seconds. -/
def scenarioInfo : FileInfo :=
  { type := "audio", size := 1048576, hash := "ab/cd", duration := mkRat 251 2,
    mediaDownloadUrl := "https://x/1", mediaStreamUrl := "https://y/1" }

/-- **C8.** Flattening the one-folder manifest
`[folder "CD1" [audio "01.mp3" …]]` yields exactly one entry, with
relative path `CD1/01.mp3`, and with `show_detail = true` the rendered
comment line for that entry is exactly
`"# size=1.000 MiB, duration=2min5.50sec"`. -/
theorem C8_concrete_scenario :
    convert_directory_to_files [Node.folder "CD1" [Node.file "01.mp3" scenarioInfo]] []
        = [(["CD1", "01.mp3"], scenarioInfo)]
    ∧ renderPath ["CD1", "01.mp3"] = "CD1/01.mp3"
    ∧ renderDetailLine scenarioInfo = "# size=1.000 MiB, duration=2min5.50sec" := by
  refine ⟨?_, by decide, by decide⟩
  simp only [convert_directory_to_files]
  simp

/-! ### Claim C9: status extraction is partial and a failure aborts the run -/

/-- **C9.** Status-code extraction from a HEAD response is partial: it
fails (modelled by `none`, an unhandled exception in the source) when the
response is empty, when the first line has fewer than two
whitespace-separated tokens, or when the second token is not an integer
numeral; and when that happens on a file's HEAD probe, the file's
processing crashes and the whole run aborts — the malformed response is
neither skipped over nor retried, and no later file is processed. -/
theorem C9_malformed_head_aborts (resp : String) (st : OrchState) (f : DFile)
    (net : FileNet) (rest : List (DFile × FileNet)) :
    ((pySplitlines resp = [] → parseStatusCode resp = none)
      ∧ (∀ first others, pySplitlines resp = first :: others →
          (pySplitWs first).length < 2 → parseStatusCode resp = none)
      ∧ (∀ first others t1 t2 ts, pySplitlines resp = first :: others →
          pySplitWs first = t1 :: t2 :: ts → pyIntOfToken t2 = none →
          parseStatusCode resp = none))
    ∧ (destIncompleteB st f = true → parseStatusCode net.headPrimary = none →
        (processFile net st f).outcome = FileOutcome.crashed
        ∧ runFiles st ((f, net) :: rest)
            = ((processFile net st f).state, [(destKey f, FileOutcome.crashed)],
               RunResult.crashed)) := by
  constructor
  · refine ⟨?_, ?_, ?_⟩
    · intro h
      simp [parseStatusCode, h]
    · intro first others hl hlen
      match hw : pySplitWs first with
      | [] => simp [parseStatusCode, hl, hw]
      | [t] => simp [parseStatusCode, hl, hw]
      | t1 :: t2 :: ts => rw [hw] at hlen; simp at hlen; omega
    · intro first others t1 t2 ts hl hw hint
      simp [parseStatusCode, hl, hw, hint]
  · intro hinc hp
    have hout : (processFile net st f).outcome = FileOutcome.crashed := by
      unfold processFile resolveUrl
      cases hl : lookupFs st.destFs (destKey f) with
      | none => simp [hl, hp]
      | some b =>
        have hblt : b.length < f.info.size := by
          simpa [destIncompleteB, hl] using hinc
        simp [hl, hp, Nat.not_le.mpr hblt]
    refine ⟨hout, ?_⟩
    simp [runFiles, hout]

/-- Concrete oracle for the C9 witness: the primary HEAD response has a
non-numeral second token. -/
def wNet9 : FileNet := ⟨"HTTP/2 abc", "HTTP/2 200 ok", [FetchOutcome.ok [1, 2, 3]]⟩

/-- Witness for C9 at a concrete input. -/
theorem C9_malformed_head_aborts_witness :
    (processFile wNet9 ⟨[], []⟩ wFile).outcome = FileOutcome.crashed
    ∧ runFiles ⟨[], []⟩ [(wFile, wNet9)]
        = ((processFile wNet9 ⟨[], []⟩ wFile).state, [(destKey wFile, FileOutcome.crashed)],
           RunResult.crashed) :=
  (C9_malformed_head_aborts "HTTP/2 abc" ⟨[], []⟩ wFile wNet9 []).2 (by decide) (by decide)

/-! ### Claim C5: staging preparation precedes every fetch -/

theorem doDownload_trace_prefix (net : FileNet) (st : OrchState) (f : DFile)
    (tr : List TraceEv) (staged : List Nat) (url : String) :
    ∃ more, (doDownload net st f tr staged url).trace = tr ++ more := by
  simp only [doDownload]
  cases (downloadLoop f.info.size staged net.downloadEvents).1 with
  | normal c =>
    exact ⟨List.replicate (downloadLoop f.info.size staged net.downloadEvents).2
        (TraceEv.downloadFetch url) ++ [TraceEv.moveStaging (stagingKey f.info) (destKey f)],
      by simp⟩
  | interrupted c =>
    exact ⟨List.replicate (downloadLoop f.info.size staged net.downloadEvents).2
        (TraceEv.downloadFetch url) ++ [TraceEv.moveStaging (stagingKey f.info) (destKey f)],
      by simp⟩
  | stillShort c =>
    exact ⟨List.replicate (downloadLoop f.info.size staged net.downloadEvents).2
        (TraceEv.downloadFetch url), by simp⟩

theorem resolveUrl_trace_prefix (net : FileNet) (st : OrchState) (f : DFile)
    (tr : List TraceEv) (staged : List Nat) :
    ∃ more, (resolveUrl net st f tr staged).trace = tr ++ more := by
  cases hp : parseStatusCode net.headPrimary with
  | none =>
    exact ⟨[TraceEv.headFetch f.info.mediaDownloadUrl], by simp [resolveUrl, hp]⟩
  | some code =>
    by_cases hc : code = 200
    · obtain ⟨more, hm⟩ := doDownload_trace_prefix net st f
        (tr ++ [TraceEv.headFetch f.info.mediaDownloadUrl]) staged f.info.mediaDownloadUrl
      refine ⟨[TraceEv.headFetch f.info.mediaDownloadUrl] ++ more, ?_⟩
      simp only [resolveUrl, hp, hc, eq_self_iff_true, if_true]
      rw [hm, List.append_assoc]
    · cases hf : parseStatusCode net.headFallback with
      | none =>
        refine ⟨[TraceEv.headFetch f.info.mediaDownloadUrl,
          TraceEv.headFetch f.info.mediaStreamUrl], ?_⟩
        simp [resolveUrl, hp, hf, hc]
      | some code2 =>
        by_cases hc2 : code2 = 200
        · obtain ⟨more, hm⟩ := doDownload_trace_prefix net st f
            (tr ++ [TraceEv.headFetch f.info.mediaDownloadUrl]
              ++ [TraceEv.headFetch f.info.mediaStreamUrl]) staged f.info.mediaStreamUrl
          refine ⟨[TraceEv.headFetch f.info.mediaDownloadUrl,
            TraceEv.headFetch f.info.mediaStreamUrl] ++ more, ?_⟩
          simp only [resolveUrl, hp, hf, hc, hc2, eq_self_iff_true, if_true, if_false,
            if_neg hc]
          rw [hm]
          simp
        · refine ⟨[TraceEv.headFetch f.info.mediaDownloadUrl,
            TraceEv.headFetch f.info.mediaStreamUrl], ?_⟩
          simp [resolveUrl, hp, hf, hc, hc2]

theorem fetch_index_ge_two (tr : List TraceEv) (e0 e1 : TraceEv)
    (h2 : tr.take 2 = [e0, e1]) (h0 : isFetchEv e0 = false) (h1 : isFetchEv e1 = false) :
    ∀ i ev, tr[i]? = some ev → isFetchEv ev = true → 2 ≤ i := by
  intro i ev hi hf
  by_contra hlt
  push_neg at hlt
  interval_cases i
  · have hx : (tr.take 2)[0]? = tr[0]? := by
      rw [List.getElem?_take]
      simp
    rw [h2, hi] at hx
    simp at hx
    subst hx
    rw [h0] at hf
    exact Bool.false_ne_true hf
  · have hx : (tr.take 2)[1]? = tr[1]? := by
      rw [List.getElem?_take]
      simp
    rw [h2, hi] at hx
    simp at hx
    subst hx
    rw [h1] at hf
    exact Bool.false_ne_true hf

/-- **C5.** Before any fetch is issued for a selected file, the staging
file is prepared: if the destination exists with fewer bytes than
declared (in particular `0 < size < declared`), the staging file is
seeded with exactly the destination's bytes; if the destination does not
exist, the staging file is created empty. In the emitted trace the
preparation event is at position 1 (after the `mkdir`), and every fetch
event sits at position 2 or later. -/
theorem C5_resume_seeding (st : OrchState) (f : DFile) (net : FileNet) :
    (∀ b, lookupFs st.destFs (destKey f) = some b → 0 < b.length →
      b.length < f.info.size →
      (processFile net st f).trace.take 2
          = [TraceEv.mkdirParents (parentKey f), TraceEv.stageSeed (stagingKey f.info) b]
      ∧ ∀ i ev, ((processFile net st f).trace)[i]? = some ev → isFetchEv ev = true → 2 ≤ i)
    ∧ (lookupFs st.destFs (destKey f) = none →
      (processFile net st f).trace.take 2
          = [TraceEv.mkdirParents (parentKey f), TraceEv.stageEmpty (stagingKey f.info)]
      ∧ ∀ i ev, ((processFile net st f).trace)[i]? = some ev → isFetchEv ev = true → 2 ≤ i) := by
  constructor
  · intro b hb hpos hlt
    have hproc : processFile net st f
        = resolveUrl net ⟨st.destFs, updateFs st.staging (stagingKey f.info) b⟩ f
            ([TraceEv.mkdirParents (parentKey f)]
              ++ [TraceEv.stageSeed (stagingKey f.info) b]) b := by
      simp [processFile, hb, Nat.not_le.mpr hlt]
    obtain ⟨more, hm⟩ := resolveUrl_trace_prefix net
      ⟨st.destFs, updateFs st.staging (stagingKey f.info) b⟩ f
      ([TraceEv.mkdirParents (parentKey f)] ++ [TraceEv.stageSeed (stagingKey f.info) b]) b
    have htr : (processFile net st f).trace.take 2
        = [TraceEv.mkdirParents (parentKey f), TraceEv.stageSeed (stagingKey f.info) b] := by
      rw [hproc, hm]
      simp
    exact ⟨htr, fetch_index_ge_two _ _ _ htr rfl rfl⟩
  · intro hb
    have hproc : processFile net st f
        = resolveUrl net ⟨st.destFs, updateFs st.staging (stagingKey f.info) []⟩ f
            ([TraceEv.mkdirParents (parentKey f)]
              ++ [TraceEv.stageEmpty (stagingKey f.info)]) [] := by
      simp [processFile, hb]
    obtain ⟨more, hm⟩ := resolveUrl_trace_prefix net
      ⟨st.destFs, updateFs st.staging (stagingKey f.info) []⟩ f
      ([TraceEv.mkdirParents (parentKey f)] ++ [TraceEv.stageEmpty (stagingKey f.info)]) []
    have htr : (processFile net st f).trace.take 2
        = [TraceEv.mkdirParents (parentKey f), TraceEv.stageEmpty (stagingKey f.info)] := by
      rw [hproc, hm]
      simp
    exact ⟨htr, fetch_index_ge_two _ _ _ htr rfl rfl⟩

/-- Concrete state for the C5 witness: destination holds 1 of 3 bytes. -/
def wSt5 : OrchState := ⟨[("d/x.mp3", [9])], []⟩

/-- Witness for C5 at a concrete input (partial-destination branch). -/
theorem C5_resume_seeding_witness :
    (processFile wNet6 wSt5 wFile).trace.take 2
        = [TraceEv.mkdirParents (parentKey wFile), TraceEv.stageSeed (stagingKey wFile.info) [9]]
    ∧ ∀ i ev, ((processFile wNet6 wSt5 wFile).trace)[i]? = some ev →
        isFetchEv ev = true → 2 ≤ i :=
  (C5_resume_seeding wSt5 wFile wNet6).1 [9] (by decide) (by decide) (by decide)

/-! ### Characterizations of the download phase -/

theorem doDownload_interrupted_spec (net : FileNet) (st' : OrchState) (f : DFile)
    (tr : List TraceEv) (staged : List Nat) (url : String) (c : List Nat) (n : Nat)
    (hl : downloadLoop f.info.size staged net.downloadEvents = (LoopExit.interrupted c, n)) :
    doDownload net st' f tr staged url
      = ⟨⟨updateFs st'.destFs (destKey f) c, removeFs st'.staging (stagingKey f.info)⟩,
          tr ++ List.replicate n (TraceEv.downloadFetch url)
            ++ [TraceEv.moveStaging (stagingKey f.info) (destKey f)],
          FileOutcome.interrupted⟩ := by
  simp [doDownload, hl]

theorem doDownload_completed_spec (net : FileNet) (st' : OrchState) (f : DFile)
    (tr : List TraceEv) (staged : List Nat) (url : String)
    (hno : neverOvershoot f.info.size staged.length net.downloadEvents = true)
    (hle : staged.length ≤ f.info.size)
    (hc : (doDownload net st' f tr staged url).outcome = FileOutcome.completed) :
    ((lookupFs (doDownload net st' f tr staged url).state.destFs (destKey f)).map
        List.length = some f.info.size)
    ∧ lookupFs (doDownload net st' f tr staged url).state.staging (stagingKey f.info) = none
    ∧ (doDownload net st' f tr staged url).trace.getLast?
        = some (TraceEv.moveStaging (stagingKey f.info) (destKey f)) := by
  cases hl : (downloadLoop f.info.size staged net.downloadEvents).1 with
  | normal c =>
    have hcl : c.length = f.info.size :=
      downloadLoop_normal_exact f.info.size net.downloadEvents staged c hno hle hl
    refine ⟨?_, ?_, ?_⟩
    · simp [doDownload, hl, lookupFs_updateFs_self, hcl]
    · simp [doDownload, hl, lookupFs_removeFs_self]
    · simp [doDownload, hl]
  | interrupted c => simp [doDownload, hl] at hc
  | stillShort c => simp [doDownload, hl] at hc

theorem resolveUrl_resolved (net : FileNet) (st' : OrchState) (f : DFile)
    (tr : List TraceEv) (staged : List Nat) (url : String)
    (hurl : resolvedUrl net f = some url) :
    ∃ tr0, resolveUrl net st' f tr staged = doDownload net st' f tr0 staged url := by
  cases hp : parseStatusCode net.headPrimary with
  | none => simp [resolvedUrl, hp] at hurl
  | some code =>
    by_cases hc : code = 200
    · have hu : url = f.info.mediaDownloadUrl := by
        simp [resolvedUrl, hp, hc] at hurl
        exact hurl.symm
      subst hu
      exact ⟨tr ++ [TraceEv.headFetch f.info.mediaDownloadUrl], by simp [resolveUrl, hp, hc]⟩
    · cases hf : parseStatusCode net.headFallback with
      | none => simp [resolvedUrl, hp, hc, hf] at hurl
      | some code2 =>
        by_cases hc2 : code2 = 200
        · have hu : url = f.info.mediaStreamUrl := by
            simp [resolvedUrl, hp, hc, hf, hc2] at hurl
            exact hurl.symm
          subst hu
          exact ⟨tr ++ [TraceEv.headFetch f.info.mediaDownloadUrl]
              ++ [TraceEv.headFetch f.info.mediaStreamUrl],
            by simp [resolveUrl, hp, hc, hf, hc2]⟩
        · simp [resolvedUrl, hp, hc, hf, hc2] at hurl

theorem processFile_resolved (st : OrchState) (f : DFile) (net : FileNet) (url : String)
    (hinc : destIncompleteB st f = true) (hurl : resolvedUrl net f = some url) :
    ∃ tr0, processFile net st f
      = doDownload net ⟨st.destFs, updateFs st.staging (stagingKey f.info) (stagedInit st f)⟩
          f tr0 (stagedInit st f) url := by
  cases hb : lookupFs st.destFs (destKey f) with
  | some b =>
    have hblt : b.length < f.info.size := by
      simpa [destIncompleteB, hb] using hinc
    have hst : stagedInit st f = b := by simp [stagedInit, hb]
    obtain ⟨tr0, htr0⟩ := resolveUrl_resolved net
      ⟨st.destFs, updateFs st.staging (stagingKey f.info) b⟩ f
      ([TraceEv.mkdirParents (parentKey f)] ++ [TraceEv.stageSeed (stagingKey f.info) b]) b
      url hurl
    refine ⟨tr0, ?_⟩
    rw [hst]
    rw [show processFile net st f
      = resolveUrl net ⟨st.destFs, updateFs st.staging (stagingKey f.info) b⟩ f
          ([TraceEv.mkdirParents (parentKey f)] ++ [TraceEv.stageSeed (stagingKey f.info) b]) b
      by simp [processFile, hb, Nat.not_le.mpr hblt]]
    exact htr0
  | none =>
    have hst : stagedInit st f = [] := by simp [stagedInit, hb]
    obtain ⟨tr0, htr0⟩ := resolveUrl_resolved net
      ⟨st.destFs, updateFs st.staging (stagingKey f.info) []⟩ f
      ([TraceEv.mkdirParents (parentKey f)] ++ [TraceEv.stageEmpty (stagingKey f.info)]) []
      url hurl
    refine ⟨tr0, ?_⟩
    rw [hst]
    rw [show processFile net st f
      = resolveUrl net ⟨st.destFs, updateFs st.staging (stagingKey f.info) []⟩ f
          ([TraceEv.mkdirParents (parentKey f)] ++ [TraceEv.stageEmpty (stagingKey f.info)]) []
      by simp [processFile, hb]]
    exact htr0

/-! ### Claim C4: interrupt relocates partial bytes and ends the run -/

/-- **C4.** If a `KeyboardInterrupt` is raised during the download loop of
a file (a not-skipped file whose URL resolved), the loop for that file
alone is exited, the staging file with whatever partial bytes it holds is
still relocated to the destination path (the staging entry disappears and
the destination holds the partial bytes; the relocation is the last
emitted action), and the run then stops: no further file is processed. -/
theorem C4_interrupt_relocates (st : OrchState) (f : DFile) (net : FileNet) (url : String)
    (c : List Nat) (n : Nat) (rest : List (DFile × FileNet))
    (hinc : destIncompleteB st f = true)
    (hurl : resolvedUrl net f = some url)
    (hl : downloadLoop f.info.size (stagedInit st f) net.downloadEvents
        = (LoopExit.interrupted c, n)) :
    (processFile net st f).outcome = FileOutcome.interrupted
    ∧ lookupFs (processFile net st f).state.destFs (destKey f) = some c
    ∧ lookupFs (processFile net st f).state.staging (stagingKey f.info) = none
    ∧ (processFile net st f).trace.getLast?
        = some (TraceEv.moveStaging (stagingKey f.info) (destKey f))
    ∧ runFiles st ((f, net) :: rest)
        = ((processFile net st f).state, [(destKey f, FileOutcome.interrupted)],
           RunResult.interrupted) := by
  obtain ⟨tr0, heq⟩ := processFile_resolved st f net url hinc hurl
  have hall : processFile net st f
      = ⟨⟨updateFs st.destFs (destKey f) c,
          removeFs (updateFs st.staging (stagingKey f.info) (stagedInit st f))
            (stagingKey f.info)⟩,
         tr0 ++ List.replicate n (TraceEv.downloadFetch url)
           ++ [TraceEv.moveStaging (stagingKey f.info) (destKey f)],
         FileOutcome.interrupted⟩ :=
    heq.trans (doDownload_interrupted_spec net
      ⟨st.destFs, updateFs st.staging (stagingKey f.info) (stagedInit st f)⟩ f tr0
      (stagedInit st f) url c n hl)
  refine ⟨by rw [hall], ?_, ?_, ?_, ?_⟩
  · rw [hall]
    exact lookupFs_updateFs_self _ _ _
  · rw [hall]
    exact lookupFs_removeFs_self _ _
  · rw [hall]
    simp
  · simp [runFiles, hall]

/-- Concrete oracle for the C4 witness: the first download invocation is
interrupted after appending one byte. -/
def wNet4 : FileNet := ⟨"HTTP/2 200 ok", "HTTP/2 200 ok", [FetchOutcome.interrupt [5]]⟩

/-- Witness for C4 at a concrete input. -/
theorem C4_interrupt_relocates_witness :
    (processFile wNet4 ⟨[], []⟩ wFile).outcome = FileOutcome.interrupted
    ∧ lookupFs (processFile wNet4 ⟨[], []⟩ wFile).state.destFs (destKey wFile) = some [5]
    ∧ lookupFs (processFile wNet4 ⟨[], []⟩ wFile).state.staging (stagingKey wFile.info) = none
    ∧ (processFile wNet4 ⟨[], []⟩ wFile).trace.getLast?
        = some (TraceEv.moveStaging (stagingKey wFile.info) (destKey wFile))
    ∧ runFiles ⟨[], []⟩ [(wFile, wNet4)]
        = ((processFile wNet4 ⟨[], []⟩ wFile).state, [(destKey wFile, FileOutcome.interrupted)],
           RunResult.interrupted) :=
  C4_interrupt_relocates ⟨[], []⟩ wFile wNet4 wFile.info.mediaDownloadUrl [5] 1 []
    (by decide) (by decide) (by decide)

/-! ### Claim C3: successful completion invariant -/

theorem resolveUrl_completed_spec (net : FileNet) (st' : OrchState) (f : DFile)
    (tr : List TraceEv) (staged : List Nat)
    (hno : neverOvershoot f.info.size staged.length net.downloadEvents = true)
    (hle : staged.length ≤ f.info.size)
    (hc : (resolveUrl net st' f tr staged).outcome = FileOutcome.completed) :
    ((lookupFs (resolveUrl net st' f tr staged).state.destFs (destKey f)).map
        List.length = some f.info.size)
    ∧ lookupFs (resolveUrl net st' f tr staged).state.staging (stagingKey f.info) = none
    ∧ (resolveUrl net st' f tr staged).trace.getLast?
        = some (TraceEv.moveStaging (stagingKey f.info) (destKey f)) := by
  cases hp : parseStatusCode net.headPrimary with
  | none => simp [resolveUrl, hp] at hc
  | some code =>
    by_cases h200 : code = 200
    · have hr : resolveUrl net st' f tr staged
          = doDownload net st' f (tr ++ [TraceEv.headFetch f.info.mediaDownloadUrl]) staged
              f.info.mediaDownloadUrl := by
        simp [resolveUrl, hp, h200]
      rw [hr] at hc ⊢
      exact doDownload_completed_spec net st' f _ staged _ hno hle hc
    · cases hf : parseStatusCode net.headFallback with
      | none => simp [resolveUrl, hp, h200, hf] at hc
      | some code2 =>
        by_cases h2 : code2 = 200
        · have hr : resolveUrl net st' f tr staged
              = doDownload net st' f (tr ++ [TraceEv.headFetch f.info.mediaDownloadUrl]
                  ++ [TraceEv.headFetch f.info.mediaStreamUrl]) staged
                  f.info.mediaStreamUrl := by
            simp [resolveUrl, hp, h200, hf, h2]
          rw [hr] at hc ⊢
          exact doDownload_completed_spec net st' f _ staged _ hno hle hc
        · simp [resolveUrl, hp, h200, hf, h2] at hc

/-- **C3.** After a successful (uninterrupted) per-file download — the
outcome is `completed`, under the transport/resume contract that no fetch
grows the staging file beyond the declared size — the destination holds
exactly `declared_size` bytes, no staging file remains for that file's
hash, and the destination's parent directories were created (first
emitted action) before the staging file was relocated (last emitted
action). -/
theorem C3_completion_invariant (st : OrchState) (f : DFile) (net : FileNet)
    (hno : neverOvershoot f.info.size (stagedInit st f).length net.downloadEvents = true)
    (hc : (processFile net st f).outcome = FileOutcome.completed) :
    ((lookupFs (processFile net st f).state.destFs (destKey f)).map List.length
        = some f.info.size)
    ∧ lookupFs (processFile net st f).state.staging (stagingKey f.info) = none
    ∧ (processFile net st f).trace.head? = some (TraceEv.mkdirParents (parentKey f))
    ∧ (processFile net st f).trace.getLast?
        = some (TraceEv.moveStaging (stagingKey f.info) (destKey f)) := by
  cases hb : lookupFs st.destFs (destKey f) with
  | some b =>
    by_cases hle : f.info.size ≤ b.length
    · simp [processFile, hb, hle] at hc
    · have hst : stagedInit st f = b := by simp [stagedInit, hb]
      rw [hst] at hno
      have hpf : processFile net st f
          = resolveUrl net ⟨st.destFs, updateFs st.staging (stagingKey f.info) b⟩ f
              ([TraceEv.mkdirParents (parentKey f)]
                ++ [TraceEv.stageSeed (stagingKey f.info) b]) b := by
        simp [processFile, hb, hle]
      rw [hpf] at hc ⊢
      obtain ⟨h1, h2, h4⟩ := resolveUrl_completed_spec net
        ⟨st.destFs, updateFs st.staging (stagingKey f.info) b⟩ f
        ([TraceEv.mkdirParents (parentKey f)] ++ [TraceEv.stageSeed (stagingKey f.info) b]) b
        hno (by omega) hc
      obtain ⟨more, hm⟩ := resolveUrl_trace_prefix net
        ⟨st.destFs, updateFs st.staging (stagingKey f.info) b⟩ f
        ([TraceEv.mkdirParents (parentKey f)] ++ [TraceEv.stageSeed (stagingKey f.info) b]) b
      exact ⟨h1, h2, by rw [hm]; simp, h4⟩
  | none =>
    have hst : stagedInit st f = [] := by simp [stagedInit, hb]
    rw [hst] at hno
    have hpf : processFile net st f
        = resolveUrl net ⟨st.destFs, updateFs st.staging (stagingKey f.info) []⟩ f
            ([TraceEv.mkdirParents (parentKey f)]
              ++ [TraceEv.stageEmpty (stagingKey f.info)]) [] := by
      simp [processFile, hb]
    rw [hpf] at hc ⊢
    obtain ⟨h1, h2, h4⟩ := resolveUrl_completed_spec net
      ⟨st.destFs, updateFs st.staging (stagingKey f.info) []⟩ f
      ([TraceEv.mkdirParents (parentKey f)] ++ [TraceEv.stageEmpty (stagingKey f.info)]) []
      hno (by simp) hc
    obtain ⟨more, hm⟩ := resolveUrl_trace_prefix net
      ⟨st.destFs, updateFs st.staging (stagingKey f.info) []⟩ f
      ([TraceEv.mkdirParents (parentKey f)] ++ [TraceEv.stageEmpty (stagingKey f.info)]) []
    exact ⟨h1, h2, by rw [hm]; simp, h4⟩

/-- Concrete oracle for the C3 witness: one failed invocation appending a
byte, then a successful one completing the 3-byte file. -/
def wNet3 : FileNet :=
  ⟨"HTTP/2 200 ok", "HTTP/2 200 ok", [FetchOutcome.err [1], FetchOutcome.ok [2, 3]]⟩

/-- Witness for C3 at a concrete input. -/
theorem C3_completion_invariant_witness :
    ((lookupFs (processFile wNet3 ⟨[], []⟩ wFile).state.destFs (destKey wFile)).map
        List.length = some wFile.info.size)
    ∧ lookupFs (processFile wNet3 ⟨[], []⟩ wFile).state.staging (stagingKey wFile.info) = none
    ∧ (processFile wNet3 ⟨[], []⟩ wFile).trace.head?
        = some (TraceEv.mkdirParents (parentKey wFile))
    ∧ (processFile wNet3 ⟨[], []⟩ wFile).trace.getLast?
        = some (TraceEv.moveStaging (stagingKey wFile.info) (destKey wFile)) :=
  C3_completion_invariant ⟨[], []⟩ wFile wNet3 (by decide) (by decide)

/-! ### Claim C1: HEAD probing, fallback exclusivity, abandonment -/

theorem doDownload_trace_events (net : FileNet) (st' : OrchState) (f : DFile)
    (TR : List TraceEv) (staged : List Nat) (url : String) :
    ∃ n tail, (doDownload net st' f TR staged url).trace
        = TR ++ List.replicate n (TraceEv.downloadFetch url) ++ tail
      ∧ (tail = [] ∨ tail = [TraceEv.moveStaging (stagingKey f.info) (destKey f)]) := by
  simp only [doDownload]
  cases (downloadLoop f.info.size staged net.downloadEvents).1 with
  | normal c =>
    exact ⟨(downloadLoop f.info.size staged net.downloadEvents).2,
      [TraceEv.moveStaging (stagingKey f.info) (destKey f)], rfl, Or.inr rfl⟩
  | interrupted c =>
    exact ⟨(downloadLoop f.info.size staged net.downloadEvents).2,
      [TraceEv.moveStaging (stagingKey f.info) (destKey f)], rfl, Or.inr rfl⟩
  | stillShort c =>
    exact ⟨(downloadLoop f.info.size staged net.downloadEvents).2, [], by simp, Or.inl rfl⟩

theorem not_mem_of_filter_fetch_nil (tr : List TraceEv) (h : tr.filter isFetchEv = [])
    (ev : TraceEv) (hf : isFetchEv ev = true) : ev ∉ tr := by
  intro hm
  have hx : ev ∈ tr.filter isFetchEv := List.mem_filter.mpr ⟨hm, hf⟩
  rw [h] at hx
  exact List.not_mem_nil ev hx

theorem resolveUrl_fallback_spec (net : FileNet) (st' : OrchState) (f : DFile)
    (tr : List TraceEv) (staged : List Nat) (cp : ℤ)
    (hp : parseStatusCode net.headPrimary = some cp)
    (htr : tr.filter isFetchEv = []) :
    (((resolveUrl net st' f tr staged).trace.filter isFetchEv).head?
        = some (TraceEv.headFetch f.info.mediaDownloadUrl))
    ∧ (cp ≠ 200 → ((resolveUrl net st' f tr staged).trace.filter isFetchEv)[1]?
        = some (TraceEv.headFetch f.info.mediaStreamUrl))
    ∧ (cp ≠ 200 → parseStatusCode net.headFallback = some 200 →
        ∀ u, TraceEv.downloadFetch u ∈ (resolveUrl net st' f tr staged).trace →
          u = f.info.mediaStreamUrl)
    ∧ (∀ cf, cp ≠ 200 → parseStatusCode net.headFallback = some cf → cf ≠ 200 →
        (resolveUrl net st' f tr staged).outcome = FileOutcome.abandoned
        ∧ (∀ u, TraceEv.downloadFetch u ∉ (resolveUrl net st' f tr staged).trace)
        ∧ (resolveUrl net st' f tr staged).state = st') := by
  by_cases h200 : cp = 200
  · have hr : resolveUrl net st' f tr staged
        = doDownload net st' f (tr ++ [TraceEv.headFetch f.info.mediaDownloadUrl]) staged
            f.info.mediaDownloadUrl := by
      simp [resolveUrl, hp, h200]
    obtain ⟨n, tail, htrace, htail⟩ := doDownload_trace_events net st' f
      (tr ++ [TraceEv.headFetch f.info.mediaDownloadUrl]) staged f.info.mediaDownloadUrl
    rw [hr]
    refine ⟨?_, ?_, ?_, ?_⟩
    · rw [htrace]
      simp [List.filter_append, htr, isFetchEv]
    · intro hne
      exact absurd h200 hne
    · intro hne
      exact absurd h200 hne
    · intro cf hne
      exact absurd h200 hne
  · cases hf : parseStatusCode net.headFallback with
    | none =>
      have hr : resolveUrl net st' f tr staged
          = ⟨st', tr ++ [TraceEv.headFetch f.info.mediaDownloadUrl]
              ++ [TraceEv.headFetch f.info.mediaStreamUrl], FileOutcome.crashed⟩ := by
        simp [resolveUrl, hp, h200, hf]
      rw [hr]
      refine ⟨?_, ?_, ?_, ?_⟩
      · simp [List.filter_append, htr, isFetchEv]
      · intro _
        simp [List.filter_append, htr, isFetchEv]
      · intro _ hf2
        cases hf2
      · intro cf _ hf2
        cases hf2
    | some cf0 =>
      by_cases h2 : cf0 = 200
      · subst h2
        have hr : resolveUrl net st' f tr staged
            = doDownload net st' f (tr ++ [TraceEv.headFetch f.info.mediaDownloadUrl]
                ++ [TraceEv.headFetch f.info.mediaStreamUrl]) staged
                f.info.mediaStreamUrl := by
          simp [resolveUrl, hp, h200, hf]
        obtain ⟨n, tail, htrace, htail⟩ := doDownload_trace_events net st' f
          (tr ++ [TraceEv.headFetch f.info.mediaDownloadUrl]
            ++ [TraceEv.headFetch f.info.mediaStreamUrl]) staged f.info.mediaStreamUrl
        rw [hr]
        refine ⟨?_, ?_, ?_, ?_⟩
        · rw [htrace]
          simp [List.filter_append, htr, isFetchEv]
        · intro _
          rw [htrace]
          simp [List.filter_append, htr, isFetchEv]
        · intro _ _ u hm
          rw [htrace] at hm
          rcases List.mem_append.mp hm with hm1 | hmtail
          · rcases List.mem_append.mp hm1 with hmTR | hmrepl
            · exfalso
              rcases List.mem_append.mp hmTR with hmTR1 | hmS
              · rcases List.mem_append.mp hmTR1 with hmtr | hmP
                · exact not_mem_of_filter_fetch_nil tr htr (TraceEv.downloadFetch u) rfl hmtr
                · simp at hmP
              · simp at hmS
            · have := List.eq_of_mem_replicate hmrepl
              injection this
          · rcases htail with h | h <;> subst h <;> simp at hmtail
        · intro cf _ hf2 hcf
          injection hf2 with h
          exact absurd h.symm hcf
      · have hr : resolveUrl net st' f tr staged
            = ⟨st', tr ++ [TraceEv.headFetch f.info.mediaDownloadUrl]
                ++ [TraceEv.headFetch f.info.mediaStreamUrl], FileOutcome.abandoned⟩ := by
          simp [resolveUrl, hp, h200, hf, h2]
        rw [hr]
        refine ⟨?_, ?_, ?_, ?_⟩
        · simp [List.filter_append, htr, isFetchEv]
        · intro _
          simp [List.filter_append, htr, isFetchEv]
        · intro _ hf2
          injection hf2 with h
          exact absurd h h2
        · intro cf _ _ _
          refine ⟨rfl, ?_, rfl⟩
          intro u hm
          rcases List.mem_append.mp hm with hm1 | hmS
          · rcases List.mem_append.mp hm1 with hmtr | hmP
            · exact not_mem_of_filter_fetch_nil tr htr (TraceEv.downloadFetch u) rfl hmtr
            · simp at hmP
          · simp at hmS

/-- **C1.** For a selected file that is not skipped, the first transport
fetch is the HEAD-only probe of the primary URL (`mediaDownloadUrl`); if
its parsed status is not 200 the second fetch is the HEAD-only probe of
the fallback URL (`mediaStreamUrl`); if the fallback's status is 200
every download fetch for that file uses the fallback URL exclusively; and
if both statuses are not 200 the file is abandoned: no download fetch is
issued for it and the run continues with the next file. -/
theorem C1_url_resolution (st : OrchState) (f : DFile) (net : FileNet) (cp : ℤ)
    (hinc : destIncompleteB st f = true)
    (hp : parseStatusCode net.headPrimary = some cp) :
    (((processFile net st f).trace.filter isFetchEv).head?
        = some (TraceEv.headFetch f.info.mediaDownloadUrl))
    ∧ (cp ≠ 200 → ((processFile net st f).trace.filter isFetchEv)[1]?
        = some (TraceEv.headFetch f.info.mediaStreamUrl))
    ∧ (cp ≠ 200 → parseStatusCode net.headFallback = some 200 →
        ∀ u, TraceEv.downloadFetch u ∈ (processFile net st f).trace →
          u = f.info.mediaStreamUrl)
    ∧ (∀ cf, cp ≠ 200 → parseStatusCode net.headFallback = some cf → cf ≠ 200 →
        (processFile net st f).outcome = FileOutcome.abandoned
        ∧ (∀ u, TraceEv.downloadFetch u ∉ (processFile net st f).trace)
        ∧ ∀ rest, runFiles st ((f, net) :: rest)
            = ((runFiles (processFile net st f).state rest).1,
               (destKey f, FileOutcome.abandoned)
                 :: (runFiles (processFile net st f).state rest).2.1,
               (runFiles (processFile net st f).state rest).2.2)) := by
  have hrun : (processFile net st f).outcome = FileOutcome.abandoned →
      ∀ rest, runFiles st ((f, net) :: rest)
        = ((runFiles (processFile net st f).state rest).1,
           (destKey f, FileOutcome.abandoned)
             :: (runFiles (processFile net st f).state rest).2.1,
           (runFiles (processFile net st f).state rest).2.2) := by
    intro ho rest
    simp [runFiles, ho]
  cases hb : lookupFs st.destFs (destKey f) with
  | some b =>
    have hblt : b.length < f.info.size := by
      simpa [destIncompleteB, hb] using hinc
    have hpf : processFile net st f
        = resolveUrl net ⟨st.destFs, updateFs st.staging (stagingKey f.info) b⟩ f
            ([TraceEv.mkdirParents (parentKey f)]
              ++ [TraceEv.stageSeed (stagingKey f.info) b]) b := by
      simp [processFile, hb, Nat.not_le.mpr hblt]
    obtain ⟨c1, c2, c3, c4⟩ := resolveUrl_fallback_spec net
      ⟨st.destFs, updateFs st.staging (stagingKey f.info) b⟩ f
      ([TraceEv.mkdirParents (parentKey f)] ++ [TraceEv.stageSeed (stagingKey f.info) b]) b
      cp hp (by simp [isFetchEv])
    refine ⟨by rw [hpf]; exact c1, by rw [hpf]; exact c2, by rw [hpf]; exact c3, ?_⟩
    intro cf hne hf2 hcf
    obtain ⟨ho, hnm, _⟩ := c4 cf hne hf2 hcf
    have ho' : (processFile net st f).outcome = FileOutcome.abandoned := by
      rw [hpf]; exact ho
    exact ⟨ho', by rw [hpf]; exact hnm, hrun ho'⟩
  | none =>
    have hpf : processFile net st f
        = resolveUrl net ⟨st.destFs, updateFs st.staging (stagingKey f.info) []⟩ f
            ([TraceEv.mkdirParents (parentKey f)]
              ++ [TraceEv.stageEmpty (stagingKey f.info)]) [] := by
      simp [processFile, hb]
    obtain ⟨c1, c2, c3, c4⟩ := resolveUrl_fallback_spec net
      ⟨st.destFs, updateFs st.staging (stagingKey f.info) []⟩ f
      ([TraceEv.mkdirParents (parentKey f)] ++ [TraceEv.stageEmpty (stagingKey f.info)]) []
      cp hp (by simp [isFetchEv])
    refine ⟨by rw [hpf]; exact c1, by rw [hpf]; exact c2, by rw [hpf]; exact c3, ?_⟩
    intro cf hne hf2 hcf
    obtain ⟨ho, hnm, _⟩ := c4 cf hne hf2 hcf
    have ho' : (processFile net st f).outcome = FileOutcome.abandoned := by
      rw [hpf]; exact ho
    exact ⟨ho', by rw [hpf]; exact hnm, hrun ho'⟩

/-- Concrete oracle for the C1 witness: primary HEAD 404, fallback HEAD
200, one successful download invocation. -/
def wNet1 : FileNet := ⟨"HTTP/2 404 nf", "HTTP/2 200 ok", [FetchOutcome.ok [1, 2, 3]]⟩

/-- Witness for C1 at a concrete input. -/
theorem C1_url_resolution_witness :
    (((processFile wNet1 ⟨[], []⟩ wFile).trace.filter isFetchEv).head?
        = some (TraceEv.headFetch wFile.info.mediaDownloadUrl))
    ∧ ((404 : ℤ) ≠ 200 → ((processFile wNet1 ⟨[], []⟩ wFile).trace.filter isFetchEv)[1]?
        = some (TraceEv.headFetch wFile.info.mediaStreamUrl))
    ∧ ((404 : ℤ) ≠ 200 → parseStatusCode wNet1.headFallback = some 200 →
        ∀ u, TraceEv.downloadFetch u ∈ (processFile wNet1 ⟨[], []⟩ wFile).trace →
          u = wFile.info.mediaStreamUrl)
    ∧ (∀ cf, (404 : ℤ) ≠ 200 → parseStatusCode wNet1.headFallback = some cf → cf ≠ 200 →
        (processFile wNet1 ⟨[], []⟩ wFile).outcome = FileOutcome.abandoned
        ∧ (∀ u, TraceEv.downloadFetch u ∉ (processFile wNet1 ⟨[], []⟩ wFile).trace)
        ∧ ∀ rest, runFiles ⟨[], []⟩ ((wFile, wNet1) :: rest)
            = ((runFiles (processFile wNet1 ⟨[], []⟩ wFile).state rest).1,
               (destKey wFile, FileOutcome.abandoned)
                 :: (runFiles (processFile wNet1 ⟨[], []⟩ wFile).state rest).2.1,
               (runFiles (processFile wNet1 ⟨[], []⟩ wFile).state rest).2.2)) :=
  C1_url_resolution ⟨[], []⟩ wFile wNet1 404 (by decide) (by decide)

/-! ### Selection session lemmas -/

theorem strData_append (s t : String) : (s ++ t).data = s.data ++ t.data := rfl

theorem strMk_data (s : String) : String.mk s.data = s := by
  cases s
  rfl

/-- A string none of whose characters is a newline or carriage return. -/
def GoodS (s : String) : Prop := ∀ c ∈ s.data, c ≠ '\n' ∧ c ≠ '\r'

theorem GoodS.append {s t : String} (h1 : GoodS s) (h2 : GoodS t) : GoodS (s ++ t) := by
  intro c hc
  rw [strData_append] at hc
  rcases List.mem_append.mp hc with h | h
  · exact h1 c h
  · exact h2 c h

theorem goodS_natDigitsAux (fuel n : Nat) : ∀ c ∈ natDigitsAux fuel n, c ≠ '\n' ∧ c ≠ '\r' := by
  induction fuel generalizing n with
  | zero => simp [natDigitsAux]
  | succ m ih =>
    intro c hc
    by_cases hn : n = 0
    · simp [natDigitsAux, hn] at hc
    · rw [natDigitsAux, if_neg hn] at hc
      rcases List.mem_append.mp hc with h | h
      · exact ih (n / 10) c h
      · have hcc : c = Char.ofNat (48 + n % 10) := by simpa using h
        subst hcc
        have hk : n % 10 < 10 := Nat.mod_lt _ (by decide)
        set k := n % 10 with hkdef
        interval_cases k <;> exact ⟨by decide, by decide⟩

theorem goodS_natToStr (n : Nat) : GoodS (natToStr n) := by
  intro c hc
  by_cases hn : n = 0
  · simp [natToStr, hn] at hc
    subst hc
    exact ⟨by decide, by decide⟩
  · rw [natToStr, if_neg hn] at hc
    exact goodS_natDigitsAux (n + 1) n c hc

theorem goodS_intToStr (n : ℤ) : GoodS (intToStr n) := by
  rw [intToStr]
  by_cases hn : n < 0
  · rw [if_pos hn]
    exact GoodS.append (by intro c hc; simp at hc; subst hc; exact ⟨by decide, by decide⟩)
      (goodS_natToStr _)
  · rw [if_neg hn]
    exact goodS_natToStr _

theorem goodS_padLeftZeros (s : String) (n : Nat) (h : GoodS s) : GoodS (padLeftZeros s n) := by
  rw [padLeftZeros]
  refine GoodS.append ?_ h
  intro c hc
  have : c = '0' := by
    simpa using List.eq_of_mem_replicate hc
  subst this
  exact ⟨by decide, by decide⟩

theorem goodS_lit_dash : GoodS "-" := by
  unfold GoodS
  decide

theorem goodS_empty : GoodS "" := by
  unfold GoodS
  decide

theorem goodS_formatFixedFrac (num : ℤ) (den : ℕ) (prec : Nat) :
    GoodS (formatFixedFrac num den prec) := by
  simp only [formatFixedFrac]
  by_cases hp : prec = 0
  · simp only [hp, if_pos rfl]
    refine GoodS.append ?_ (goodS_natToStr _)
    split
    · exact goodS_lit_dash
    · exact goodS_empty
  · simp only [if_neg hp]
    refine GoodS.append (GoodS.append (GoodS.append ?_ (goodS_natToStr _))
      (by unfold GoodS; decide)) (goodS_padLeftZeros _ _ (goodS_natToStr _))
    split
    · exact goodS_lit_dash
    · exact goodS_empty

theorem goodS_renderDetailLine (info : FileInfo) : GoodS (renderDetailLine info) := by
  rw [renderDetailLine]
  refine GoodS.append (by unfold GoodS; decide) (GoodS.append (goodS_formatFixedFrac _ _ _)
    (GoodS.append (by unfold GoodS; decide) ?_))
  split
  · exact GoodS.append (by unfold GoodS; decide) (GoodS.append (goodS_intToStr _)
      (GoodS.append (by unfold GoodS; decide)
        (GoodS.append (goodS_formatFixedFrac _ _ _) (by unfold GoodS; decide))))
  · exact goodS_empty

theorem splitOnNl_ne_nil (l : List Char) : splitOnNl l ≠ [] := by
  cases l with
  | nil => simp [splitOnNl]
  | cons c rest =>
    rw [splitOnNl]
    by_cases h : c = '\n'
    · simp [h]
    · simp only [if_neg h]
      cases splitOnNl rest <;> simp

theorem splitOnNl_append_cons (l r : List Char) (h : '\n' ∉ l) :
    splitOnNl (l ++ '\n' :: r) = l :: splitOnNl r := by
  induction l with
  | nil => simp [splitOnNl]
  | cons c t ih =>
    have hc : c ≠ '\n' := fun e => h (by simp [e])
    have ht : '\n' ∉ t := fun e => h (List.mem_cons_of_mem _ e)
    rw [List.cons_append, splitOnNl, if_neg hc, ih ht]

theorem normalizeNewlines_eq_self (l : List Char) (h : '\r' ∉ l) :
    normalizeNewlines l = l := by
  induction l with
  | nil => simp [normalizeNewlines]
  | cons c rest ih =>
    have hc : c ≠ '\r' := fun e => h (by simp [e])
    have hrest : '\r' ∉ rest := fun e => h (List.mem_cons_of_mem _ e)
    cases rest with
    | nil => simp [normalizeNewlines, hc]
    | cons d rest' =>
      rw [normalizeNewlines, if_neg hc, ih hrest]

theorem splitOnNl_flatten (ls : List (List Char)) (h : ∀ l ∈ ls, '\n' ∉ l) :
    splitOnNl ((ls.map (fun l => l ++ ['\n'])).flatten) = ls ++ [[]] := by
  induction ls with
  | nil => simp [splitOnNl]
  | cons l rest ih =>
    have hl : '\n' ∉ l := h l (List.mem_cons_self l rest)
    have hrest : ∀ x ∈ rest, '\n' ∉ x := fun x hx => h x (List.mem_cons_of_mem _ hx)
    rw [List.map_cons, List.flatten_cons,
      show (l ++ ['\n']) ++ ((rest.map (fun l => l ++ ['\n'])).flatten)
        = l ++ '\n' :: ((rest.map (fun l => l ++ ['\n'])).flatten) by simp,
      splitOnNl_append_cons _ _ hl, ih hrest]
    rfl

theorem dropTrailingSpaces_cons_keep (c : Char) (t : List Char)
    (hc : isPyStrSpace c = false) :
    ∃ t', dropTrailingSpaces (c :: t) = c :: t' := by
  rw [dropTrailingSpaces]
  cases h : dropTrailingSpaces t with
  | nil => exact ⟨[], by simp [hc]⟩
  | cons x xs => exact ⟨x :: xs, rfl⟩

theorem pyStripList_cons_keep (c : Char) (t : List Char) (hc : isPyStrSpace c = false) :
    ∃ t', pyStripList (c :: t) = c :: t' := by
  rw [pyStripList, List.dropWhile_cons, if_neg (by simp [hc])]
  exact dropTrailingSpaces_cons_keep c t hc

theorem selLine_starts_hash (l : List Char) (h : startsHashL l = true) : selLine l = none := by
  cases l with
  | nil => simp [startsHashL] at h
  | cons c t =>
    have hc : c = '#' := by simpa [startsHashL] using h
    subst hc
    obtain ⟨t', ht'⟩ := pyStripList_cons_keep '#' t (by decide)
    simp [selLine, ht', startsHashL]

theorem selLine_good (s : String) (h1 : pyStripList s.data = s.data) (h2 : s.data ≠ [])
    (h3 : startsHashL s.data = false) : selLine s.data = some s := by
  simp only [selLine, h1]
  rw [if_neg (by simpa [List.isEmpty_iff] using h2), if_neg (by simp [h3]), strMk_data]

theorem selLine_some_no_hash (l : List Char) (s : String) (h : selLine l = some s) :
    startsHashS s = false := by
  simp only [selLine] at h
  by_cases he : (pyStripList l).isEmpty
  · rw [if_pos he] at h
    cases h
  · rw [if_neg he] at h
    by_cases hh : startsHashL (pyStripList l)
    · rw [if_pos hh] at h
      cases h
    · rw [if_neg hh] at h
      injection h with h
      subst h
      simpa [startsHashS] using hh

theorem renderDetail_starts_hash (info : FileInfo) :
    startsHashL (renderDetailLine info).data = true := by
  rw [renderDetailLine]
  rfl

/-- The goodness conditions on a rendered path under which its line
survives the selection round trip unchanged. -/
def GoodPath (s : String) : Prop :=
  pyStripList s.data = s.data ∧ s.data ≠ [] ∧ startsHashL s.data = false ∧ GoodS s

theorem filterMap_entryLines (detail : Bool) (files : List (List String × FileInfo))
    (hgood : ∀ e ∈ files, GoodPath (renderPath e.1)) :
    List.filterMap selLine ((files.flatMap (entryLines detail)).map String.data)
      = files.map (fun e => renderPath e.1) := by
  induction files with
  | nil => simp
  | cons e rest ih =>
    have hge := hgood e (List.mem_cons_self e rest)
    have hgr : ∀ x ∈ rest, GoodPath (renderPath x.1) :=
      fun x hx => hgood x (List.mem_cons_of_mem _ hx)
    rw [show (e :: rest).flatMap (entryLines detail)
        = entryLines detail e ++ rest.flatMap (entryLines detail) by simp]
    rw [List.map_append, List.filterMap_append, ih hgr, List.map_cons]
    rw [entryLines]
    by_cases hd : detail
    · rw [if_pos hd]
      rw [show ([renderDetailLine e.2] ++ [renderPath e.1]).map String.data
          = [(renderDetailLine e.2).data, (renderPath e.1).data] by rfl]
      rw [List.filterMap_cons, selLine_starts_hash _ (renderDetail_starts_hash e.2),
        List.filterMap_cons, selLine_good _ hge.1 hge.2.1 hge.2.2.1]
      rfl
    · rw [if_neg hd]
      rw [show (([] : List String) ++ [renderPath e.1]).map String.data
          = [(renderPath e.1).data] by rfl]
      rw [List.filterMap_cons, selLine_good _ hge.1 hge.2.1 hge.2.2.1]
      rfl

theorem parseSelected_renderContent (detail : Bool) (files : List (List String × FileInfo))
    (hgood : ∀ e ∈ files, GoodPath (renderPath e.1)) :
    parseSelected (renderContent detail files) = files.map (fun e => renderPath e.1) := by
  have hlines : ∀ s ∈ contentLines detail files, GoodS s := by
    intro s hs
    rw [contentLines] at hs
    rcases List.mem_append.mp hs with hh | hf
    · rw [headerLines] at hh
      simp only [List.mem_cons, List.not_mem_nil, or_false] at hh
      rcases hh with h | h | h <;> subst h
      · unfold GoodS
        decide
      · unfold GoodS
        decide
      · exact goodS_empty
    · obtain ⟨e, he, hse⟩ := List.mem_flatMap.mp hf
      rw [entryLines] at hse
      rcases List.mem_append.mp hse with h1 | h2
      · by_cases hd : detail
        · rw [if_pos hd] at h1
          simp only [List.mem_singleton] at h1
          subst h1
          exact goodS_renderDetailLine e.2
        · rw [if_neg hd] at h1
          simp at h1
      · simp only [List.mem_singleton] at h2
        subst h2
        exact (hgood e he).2.2.2
  have hmapmap : ((contentLines detail files).map (fun s => s.data ++ ['\n']))
      = ((contentLines detail files).map String.data).map (fun l => l ++ ['\n']) := by
    rw [List.map_map]
    rfl
  have hnorm : normalizeNewlines (renderContent detail files).data
      = (renderContent detail files).data := by
    apply normalizeNewlines_eq_self
    intro hcr
    rw [show (renderContent detail files).data
        = (((contentLines detail files).map (fun s => s.data ++ ['\n'])).flatten) from rfl]
      at hcr
    obtain ⟨piece, hp, hcp⟩ := List.mem_flatten.mp hcr
    obtain ⟨s, hs, hps⟩ := List.mem_map.mp hp
    subst hps
    rcases List.mem_append.mp hcp with h | h
    · exact ((hlines s hs) '\r' h).2 rfl
    · simp at h
  have hsplit : splitOnNl (renderContent detail files).data
      = ((contentLines detail files).map String.data) ++ [[]] := by
    rw [show (renderContent detail files).data
        = (((contentLines detail files).map (fun s => s.data ++ ['\n'])).flatten) from rfl,
      hmapmap]
    apply splitOnNl_flatten
    intro l hl
    obtain ⟨s, hs, hls⟩ := List.mem_map.mp hl
    subst hls
    intro hnl
    exact ((hlines s hs) '\n' hnl).1 rfl
  rw [parseSelected, hnorm, hsplit, contentLines, List.map_append, List.filterMap_append,
    List.filterMap_append]
  have h1 : List.filterMap selLine (headerLines.map String.data) = [] := by decide
  have h3 : List.filterMap selLine [([] : List Char)] = [] := by decide
  rw [h1, h3, filterMap_entryLines detail files hgood]
  simp

/-! ### Claim C7: round-trip selection (corrected) -/

/-- Concrete entry list refuting C7 as stated: one entry whose title (and
hence whose rendered path line) starts with the comment marker. -/
def cexFiles7 : List (List String × FileInfo) := [(["#bad"], wInfo)]

/-- **C7, counterexample.** The claim "for every list of flattened
entries, writing the editable text and reading it back unmodified selects
the full original entry set" is false: for the entry list `cexFiles7`
(one file titled `#bad`), the unmodified round trip selects nothing. -/
theorem C7_round_trip_cex :
    selectedFilesData (renderContent false cexFiles7) cexFiles7 ≠ cexFiles7 := by
  decide

/-- **C7 (amended).** If every entry's rendered path is its own trim
(no leading or trailing whitespace), non-empty, does not start with the
comment marker, and contains no newline or carriage return, then writing
the editable text and reading it back unmodified yields a selection equal
to the full original entry set: every entry is selected, where a line is
selected iff after trimming it is non-empty and does not start with `#`,
and lines are matched to entries by exact string equality of the path. -/
theorem C7_round_trip (detail : Bool) (files : List (List String × FileInfo))
    (hgood : ∀ e ∈ files, GoodPath (renderPath e.1)) :
    selectedFilesData (renderContent detail files) files = files := by
  rw [selectedFilesData]
  apply List.filter_eq_self.mpr
  intro e he
  rw [parseSelected_renderContent detail files hgood]
  exact decide_eq_true (List.mem_map_of_mem _ he)

/-- Witness for the amended C7 at a concrete input. -/
theorem C7_round_trip_witness :
    selectedFilesData (renderContent true [(["CD1", "01.mp3"], wInfo)])
        [(["CD1", "01.mp3"], wInfo)]
      = [(["CD1", "01.mp3"], wInfo)] :=
  C7_round_trip true [(["CD1", "01.mp3"], wInfo)] (by
    intro e he
    simp only [List.mem_singleton] at he
    subst he
    refine ⟨by decide, by decide, by decide, ?_⟩
    unfold GoodS
    decide)

/-! ### Claim C10: a path line starting with the comment marker is never selected -/

theorem not_mem_parseSelected_of_hash (content : String) (s : String)
    (hh : startsHashS s = true) : s ∉ parseSelected content := by
  intro hm
  rw [parseSelected] at hm
  obtain ⟨l, _, hsel⟩ := List.mem_filterMap.mp hm
  have hf := selLine_some_no_hash l s hsel
  rw [hf] at hh
  exact Bool.false_ne_true hh

/-- **C10.** A flattened entry whose rendered path line begins with the
comment marker `#` can never be selected: even when the editable text is
read back completely unmodified, the parser classifies its line as a
comment, so the entry is excluded from the selection. -/
theorem C10_hash_path_never_selected (detail : Bool)
    (files : List (List String × FileInfo)) (e : List String × FileInfo)
    (_he : e ∈ files) (hh : startsHashS (renderPath e.1) = true) :
    e ∉ selectedFilesData (renderContent detail files) files := by
  intro hmem
  rw [selectedFilesData] at hmem
  have hp := List.of_mem_filter hmem
  have hp' : renderPath e.1 ∈ parseSelected (renderContent detail files) :=
    of_decide_eq_true hp
  exact not_mem_parseSelected_of_hash _ _ hh hp'

/-- Concrete entry list for the C10 witness. -/
def cexFiles10 : List (List String × FileInfo) := [(["#tag"], wInfo)]

/-- Witness for C10 at a concrete input. -/
theorem C10_hash_path_never_selected_witness :
    (["#tag"], wInfo) ∉ selectedFilesData (renderContent false cexFiles10) cexFiles10 :=
  C10_hash_path_never_selected false cexFiles10 (["#tag"], wInfo) (by decide) (by decide)
